import Mathlib

/-!
Verification of the image-normalization transform of `src/lib/bshbd.py`
(`resize_and_encode`): a shallow embedding of the function's arithmetic and
data flow, together with proofs of the specification's claims about it.

Modelling conventions:
* Python ints are `ℤ` (widths, heights, the `max_dimension` bound); Python's
  `int(...)` conversion (truncation toward zero) is `pyInt`.  The scale
  computation exists in two forms: `resizeStep` evaluates it in exact `ℚ`
  arithmetic (adequate for claims whose conclusions are robust to float
  rounding), and `resizeStepF` evaluates it in a faithful model of binary64
  floating point (`fl64`: round to nearest, ties to even, 53-bit
  significand), which is what Python actually computes.
* The decoded raster is modelled by its observable attributes: width, height
  and color mode (the attributes the specification's data model lists and the
  claims quantify over); pixel content is abstracted away.
* `PIL.Image.open` is modelled by `imageOpen` over an explicit `Source` type:
  a missing file raises `FileNotFoundError` (the spec's
  `SourceUnavailableError`), undecodable bytes raise
  `PIL.UnidentifiedImageError` (the spec's `DecodeError`).  The spec's
  `InvalidArgumentError` is included in the error type so that claims about
  it can be stated; the code contains no raise of it.  The library calls
  downstream of decoding are fallible too: `imageResize` raises Pillow's
  `ValueError` for target dimensions below 1, and `imageSaveJPEG` raises it
  for dimensions the JPEG format's 16-bit fields cannot hold.
* The JPEG byte stream produced by `img.save(..., format="JPEG", quality=85)`
  is modelled by `jpegEncode`, a deterministic function of the raster's
  dimensions, channel count and the quality setting, emitting a JPEG-shaped
  byte list (SOI marker, 16-bit big-endian dimensions as in a real SOF
  segment, component count, quality, EOI marker).  Real JPEG streams store
  dimensions in 16 bits, hence the `% 65536`.
* `base64.b64encode` is implemented in full (standard RFC 4648 alphabet,
  `=` padding, no line wrapping) together with a decoder, so that the
  base64 claims are proved against a real round-trip.
-/

namespace Bshbd

/-- PIL color modes relevant to the spec: grayscale L, RGB, RGBA, CMYK. -/
inductive Mode where
  | L
  | RGB
  | RGBA
  | CMYK
  deriving DecidableEq, Repr

/-- Number of color channels (PIL bands) of a mode. -/
def Mode.channels : Mode → ℕ
  | .L => 1
  | .RGB => 3
  | .RGBA => 4
  | .CMYK => 4

/-- The in-memory decoded raster: width and height in pixels and the color
mode.  Pixel content is abstracted; these are the attributes the claims
quantify over. -/
structure RawImage where
  width : ℤ
  height : ℤ
  mode : Mode
  deriving DecidableEq, Repr

/-- Errors the imaging-library calls can raise, under the spec's names:
`sourceUnavailable` is Python's `FileNotFoundError` from `Image.open`,
`decodeError` is `PIL.UnidentifiedImageError` from `Image.open`,
`valueError` is the `ValueError` Pillow raises downstream when a resize
target dimension is below 1 or when the JPEG encoder is given dimensions its
16-bit fields cannot hold.  `invalidArgument` is the spec's
`InvalidArgumentError`; it is present so claims about it can be stated, and
the code never raises it. -/
inductive PILError where
  | sourceUnavailable
  | decodeError
  | invalidArgument
  | valueError
  deriving DecidableEq, Repr

/-- An image source handed to `Image.open`: a path that does not resolve, a
file whose bytes are not a decodable image, or a decodable image file with
its raw on-disk bytes and the raster it decodes to. -/
inductive Source where
  | missingFile
  | undecodableBytes (raw : List ℕ)
  | imageFile (raw : List ℕ) (img : RawImage)
  deriving DecidableEq, Repr

/-- Model of `PIL.Image.open`: a missing file raises `FileNotFoundError`,
non-image bytes raise `UnidentifiedImageError`, an image file yields its
decoded raster (the raw bytes influence only what the raster is, which the
`Source` value already records). -/
def imageOpen : Source → Except PILError RawImage
  | .missingFile => .error .sourceUnavailable
  | .undecodableBytes _ => .error .decodeError
  | .imageFile _ img => .ok img

/-- Python's `int(...)` on a rational value: truncation toward zero. -/
def pyInt (q : ℚ) : ℤ :=
  if 0 ≤ q then ⌊q⌋ else ⌈q⌉

/-- Model of `img.resize((new_width, new_height), Image.Resampling.LANCZOS)`:
the raster's dimensions become the requested ones (resampled pixel content is
abstracted away; the mode is unchanged). -/
def RawImage.resize (img : RawImage) (size : ℤ × ℤ) : RawImage :=
  { img with width := size.1, height := size.2 }

/-- Model of `img.convert("RGB")` and its analogues: the raster's mode
becomes the requested one (channel data conversion is abstracted away). -/
def RawImage.convert (img : RawImage) (m : Mode) : RawImage :=
  { img with mode := m }

/-- Step 1 of `resize_and_encode` (lines 13-18 of `bshbd.py`): if
`max(width, height) > max_dimension`, compute
`scale_factor = max_dimension / max(width, height)` by true division and
resize to `(int(width * scale_factor), int(height * scale_factor))`;
otherwise leave the image untouched. -/
def resizeStep (img : RawImage) (max_dimension : ℤ) : RawImage :=
  if max img.width img.height > max_dimension then
    let scale_factor : ℚ := (max_dimension : ℚ) / ((max img.width img.height : ℤ) : ℚ)
    let new_width : ℤ := pyInt ((img.width : ℚ) * scale_factor)
    let new_height : ℤ := pyInt ((img.height : ℚ) * scale_factor)
    img.resize (new_width, new_height)
  else
    img

/-- The resize dimensions exactly as the specification's sentence prescribes
them: scale = max_dimension / max(W, H), new_width = round(W × scale),
new_height = round(H × scale); dimensions unchanged when
max(W, H) ≤ max_dimension.  This definition follows the spec's words and is
compared against `resizeStep`, which follows the code. -/
def specNewSize (W H max_dimension : ℤ) : ℤ × ℤ :=
  if max W H > max_dimension then
    (round ((W : ℚ) * ((max_dimension : ℚ) / ((max W H : ℤ) : ℚ))),
     round ((H : ℚ) * ((max_dimension : ℚ) / ((max W H : ℤ) : ℚ))))
  else
    (W, H)

/-- Round a rational to the nearest integer, ties to even — the rounding of
IEEE 754 round-to-nearest-even at integer granularity. -/
def rne (x : ℚ) : ℤ :=
  if x - ⌊x⌋ < 1/2 then ⌊x⌋
  else if 1/2 < x - ⌊x⌋ then ⌊x⌋ + 1
  else if 2 ∣ ⌊x⌋ then ⌊x⌋ else ⌊x⌋ + 1

/-- Binary64 rounding of a positive rational: scale into the 53-bit
significand window `[2^52, 2^53)` using the base-2 logarithm, round to
nearest even, and scale back.  Models IEEE 754 double rounding on the normal
range (the magnitudes arising in this file are far from overflow and
subnormal territory). -/
def fl64Pos (q : ℚ) : ℚ :=
  (rne (q * (2:ℚ) ^ (52 - Int.log 2 q)) : ℚ) / (2:ℚ) ^ (52 - Int.log 2 q)

/-- Binary64 rounding of a rational: sign-symmetric extension of `fl64Pos`.
The result of every Python float operation `a op b` is `fl64` of the exact
rational value of `a op b`. -/
def fl64 (q : ℚ) : ℚ :=
  if 0 < q then fl64Pos q
  else if q < 0 then -fl64Pos (-q)
  else 0

/-- Binary64-faithful model of the resize target computation of lines 14-18:
the true division `max_dimension / max(width, height)` and the
multiplications `width * scale_factor`, `height * scale_factor` each round
their exact value to the nearest binary64 number (`fl64`), and `int(...)`
truncates (`pyInt`).  `resizeStep` is the exact-arithmetic idealization of
the same lines; this definition refines it where float rounding matters. -/
def resizeStepF (img : RawImage) (max_dimension : ℤ) : RawImage :=
  if max img.width img.height > max_dimension then
    let scale_factor : ℚ :=
      fl64 ((max_dimension : ℚ) / ((max img.width img.height : ℤ) : ℚ))
    let new_width : ℤ := pyInt (fl64 ((img.width : ℚ) * scale_factor))
    let new_height : ℤ := pyInt (fl64 ((img.height : ℚ) * scale_factor))
    img.resize (new_width, new_height)
  else
    img

/-- The 64-character standard base64 alphabet of RFC 4648, the one
`base64.b64encode` uses: A-Z, a-z, 0-9, +, /. -/
def b64Alphabet : List Char :=
  ['A', 'B', 'C', 'D', 'E', 'F', 'G', 'H', 'I', 'J', 'K', 'L', 'M',
   'N', 'O', 'P', 'Q', 'R', 'S', 'T', 'U', 'V', 'W', 'X', 'Y', 'Z',
   'a', 'b', 'c', 'd', 'e', 'f', 'g', 'h', 'i', 'j', 'k', 'l', 'm',
   'n', 'o', 'p', 'q', 'r', 's', 't', 'u', 'v', 'w', 'x', 'y', 'z',
   '0', '1', '2', '3', '4', '5', '6', '7', '8', '9', '+', '/']

/-- The alphabet character of a 6-bit value. -/
def b64Char (n : ℕ) : Char :=
  b64Alphabet.getD n 'A'

/-- Position of a character in a character list, if present. -/
def charIndex : List Char → Char → Option ℕ
  | [], _ => none
  | a :: rest, c => if a = c then some 0 else (charIndex rest c).map (· + 1)

/-- The 6-bit value of an alphabet character, if it is one. -/
def b64Val (c : Char) : Option ℕ :=
  charIndex b64Alphabet c

/-- Model of `base64.b64encode` on a byte list (values < 256): each group of
three bytes becomes four alphabet characters; a trailing group of one or two
bytes is padded with `=`.  No line breaks are ever inserted. -/
def b64encodeList : List ℕ → List Char
  | a :: b :: c :: rest =>
      let n := a * 65536 + b * 256 + c
      b64Char (n / 262144) :: b64Char (n / 4096 % 64) :: b64Char (n / 64 % 64) ::
        b64Char (n % 64) :: b64encodeList rest
  | [a] =>
      let n := a * 65536
      [b64Char (n / 262144), b64Char (n / 4096 % 64), '=', '=']
  | [a, b] =>
      let n := a * 65536 + b * 256
      [b64Char (n / 262144), b64Char (n / 4096 % 64), b64Char (n / 64 % 64), '=']
  | [] => []

/-- Model of `base64.b64decode` on the character list of a base64 string:
inverse of `b64encodeList`, rejecting malformed input with `none`. -/
def b64decodeList : List Char → Option (List ℕ)
  | [] => some []
  | c1 :: c2 :: c3 :: c4 :: rest =>
      match b64Val c1, b64Val c2 with
      | some d1, some d2 =>
          if c3 = '=' ∧ c4 = '=' ∧ rest = [] then
            some [(d1 * 262144 + d2 * 4096) / 65536]
          else
            match b64Val c3 with
            | some d3 =>
                if c4 = '=' ∧ rest = [] then
                  some [(d1 * 262144 + d2 * 4096 + d3 * 64) / 65536,
                        (d1 * 262144 + d2 * 4096 + d3 * 64) / 256 % 256]
                else
                  match b64Val c4, b64decodeList rest with
                  | some d4, some tail =>
                      let m := d1 * 262144 + d2 * 4096 + d3 * 64 + d4
                      some (m / 65536 :: m / 256 % 256 :: m % 256 :: tail)
                  | _, _ => none
            | none => none
      | _, _ => none
  | _ => none

/-- Decoding a base64 `String` decodes its character data. -/
def b64decodeString (s : String) : Option (List ℕ) :=
  b64decodeList s.data

/-- Model of `img.save(buffered, format="JPEG", quality=85)` followed by
`buffered.getvalue()`: the lossy compressed byte stream PIL's JPEG encoder
writes, as a deterministic function of the raster's dimensions, its channel
count and the quality setting.  The stream shape follows JPEG: SOI marker
`FF D8`, the dimensions as 16-bit big-endian values (a real SOF0 segment
stores height and width in 16 bits each, which is why JPEG cannot record a
dimension above 65535), the component count, the quality, and the EOI marker
`FF D9`.  The fallible `imageSaveJPEG` wrapper below rejects dimensions
outside the 16-bit range before this byte-stream function is reached on the
pipeline's path, so the `% 65536` here never wraps there.  Pixel content is
abstracted away. -/
def jpegEncode (img : RawImage) (quality : ℕ) : List ℕ :=
  [255, 216,
   img.height.toNat / 256 % 256, img.height.toNat % 256,
   img.width.toNat / 256 % 256, img.width.toNat % 256,
   img.mode.channels % 256,
   quality % 256,
   255, 217]

/-- Reads back the dimensions and channel count recorded in a byte stream
produced by `jpegEncode`: `some (width, height, channels)` when the stream is
well-formed. -/
def jpegHeaderInfo : List ℕ → Option (ℕ × ℕ × ℕ)
  | [m1, m2, h1, h2, w1, w2, ch, _q, m3, m4] =>
      if m1 = 255 ∧ m2 = 216 ∧ m3 = 255 ∧ m4 = 217 then
        some (w1 * 256 + w2, h1 * 256 + h2, ch)
      else none
  | _ => none

/-- The quality level hardwired in `img.save(..., quality=85)`. -/
def QUALITY : ℕ := 85

/-- Model of `img.resize((new_width, new_height), Image.Resampling.LANCZOS)`
as the library call: Pillow raises a `ValueError` when a requested target
dimension is below 1 (directly at the resize for negative sizes, or at the
JPEG save of the resulting empty image for size 0 — modelled uniformly at
the resize call); otherwise the raster takes the requested dimensions. -/
def imageResize (img : RawImage) (size : ℤ × ℤ) : Except PILError RawImage :=
  if 1 ≤ size.1 ∧ 1 ≤ size.2 then Except.ok (img.resize size)
  else Except.error PILError.valueError

/-- The resize block of lines 13-18 as the program executes it: compute the
target size and call the fallible library resize when the longest side
exceeds the bound, otherwise pass the image through.  On success the result
is exactly `resizeStep`. -/
def resizeChecked (img : RawImage) (max_dimension : ℤ) : Except PILError RawImage :=
  if max img.width img.height > max_dimension then
    let scale_factor : ℚ := (max_dimension : ℚ) / ((max img.width img.height : ℤ) : ℚ)
    let new_width : ℤ := pyInt ((img.width : ℚ) * scale_factor)
    let new_height : ℤ := pyInt ((img.height : ℚ) * scale_factor)
    imageResize img (new_width, new_height)
  else
    Except.ok img

/-- Model of `img.save(buffered, format="JPEG", quality=85)` as the library
call: Pillow's JPEG encoder raises a `ValueError` when a dimension is
outside what the format's 16-bit dimension fields can hold (or the image is
empty); otherwise it writes the `jpegEncode` byte stream. -/
def imageSaveJPEG (img : RawImage) (quality : ℕ) : Except PILError (List ℕ) :=
  if 1 ≤ img.width ∧ img.width ≤ 65535 ∧ 1 ≤ img.height ∧ img.height ≤ 65535 then
    Except.ok (jpegEncode img quality)
  else
    Except.error PILError.valueError

/-- Shallow embedding of `resize_and_encode(image_path, max_dimension)`
(lines 6-28 of `bshbd.py`): open the source (errors from `Image.open`
propagate), resize when the longest side exceeds `max_dimension`
(propagating the library's failure on degenerate targets), convert to RGB,
save as JPEG at quality 85 into an in-memory buffer (propagating the
encoder's failure on dimensions it cannot hold), and return the base64 text
of the buffer's bytes. -/
def resize_and_encode (source : Source) (max_dimension : ℤ) : Except PILError String :=
  match imageOpen source with
  | .error e => .error e
  | .ok img =>
      match resizeChecked img max_dimension with
      | .error e => .error e
      | .ok resized =>
          match imageSaveJPEG (resized.convert .RGB) QUALITY with
          | .error e => .error e
          | .ok bytes => .ok (String.mk (b64encodeList bytes))

/-! Helper lemmas about the base64 alphabet. -/

theorem b64Val_b64Char_fin : ∀ n : Fin 64, b64Val (b64Char n.val) = some n.val := by decide

theorem b64Char_ne_pad_fin : ∀ n : Fin 64, b64Char n.val ≠ '=' := by decide

theorem mem_alphabet_fin : ∀ n : Fin 64, b64Char n.val ∈ b64Alphabet := by decide

theorem b64Val_b64Char (n : ℕ) (h : n < 64) : b64Val (b64Char n) = some n :=
  b64Val_b64Char_fin ⟨n, h⟩

theorem b64Char_ne_pad (n : ℕ) (h : n < 64) : b64Char n ≠ '=' :=
  b64Char_ne_pad_fin ⟨n, h⟩

theorem b64Char_mem_alphabet (n : ℕ) : b64Char n ∈ b64Alphabet := by
  by_cases h : n < 64
  · exact mem_alphabet_fin ⟨n, h⟩
  · have hlen : b64Alphabet.length ≤ n := by
      have : b64Alphabet.length = 64 := by decide
      omega
    rw [b64Char, List.getD_eq_default _ _ hlen]
    decide

/-- Base64 round-trip: decoding the encoding of any byte list (all values
below 256) gives back exactly that byte list. -/
theorem b64_roundtrip : ∀ bs : List ℕ, (∀ x ∈ bs, x < 256) →
    b64decodeList (b64encodeList bs) = some bs
  | [], _ => rfl
  | [a], h => by
      have ha : a < 256 := h a (by simp)
      have h1 := b64Val_b64Char (a * 65536 / 262144) (by omega)
      have h2 := b64Val_b64Char (a * 65536 / 4096 % 64) (by omega)
      simp only [b64encodeList, b64decodeList, h1, h2]
      rw [if_pos (by simp)]
      simp only [Option.some.injEq, List.cons.injEq, and_true]
      omega
  | [a, b], h => by
      have ha : a < 256 := h a (by simp)
      have hb : b < 256 := h b (by simp)
      have h1 := b64Val_b64Char ((a * 65536 + b * 256) / 262144) (by omega)
      have h2 := b64Val_b64Char ((a * 65536 + b * 256) / 4096 % 64) (by omega)
      have h3 := b64Val_b64Char ((a * 65536 + b * 256) / 64 % 64) (by omega)
      have hne := b64Char_ne_pad ((a * 65536 + b * 256) / 64 % 64) (by omega)
      simp only [b64encodeList, b64decodeList, h1, h2, h3]
      rw [if_neg (by simp [hne]), if_pos (by simp)]
      simp only [Option.some.injEq, List.cons.injEq, and_true]
      omega
  | a :: b :: c :: rest, h => by
      have ha : a < 256 := h a (by simp)
      have hb : b < 256 := h b (by simp)
      have hc : c < 256 := h c (by simp)
      have ih := b64_roundtrip rest (fun x hx => h x (by simp [hx]))
      have h1 := b64Val_b64Char ((a * 65536 + b * 256 + c) / 262144) (by omega)
      have h2 := b64Val_b64Char ((a * 65536 + b * 256 + c) / 4096 % 64) (by omega)
      have h3 := b64Val_b64Char ((a * 65536 + b * 256 + c) / 64 % 64) (by omega)
      have h4 := b64Val_b64Char ((a * 65536 + b * 256 + c) % 64) (by omega)
      have hne3 := b64Char_ne_pad ((a * 65536 + b * 256 + c) / 64 % 64) (by omega)
      have hne4 := b64Char_ne_pad ((a * 65536 + b * 256 + c) % 64) (by omega)
      simp only [b64encodeList, b64decodeList, h1, h2, h3, h4, ih]
      rw [if_neg (by simp [hne3]), if_neg (by simp [hne4])]
      simp only [Option.some.injEq, List.cons.injEq]
      refine ⟨by omega, by omega, by omega, trivial⟩

/-- Every character the base64 encoder emits is an alphabet character or the
padding character; in particular no newline is ever emitted. -/
theorem b64encode_chars : ∀ bs : List ℕ, ∀ ch ∈ b64encodeList bs,
    ch ∈ b64Alphabet ∨ ch = '='
  | [], ch, hch => by simp [b64encodeList] at hch
  | [a], ch, hch => by
      simp only [b64encodeList, List.mem_cons, List.not_mem_nil, or_false] at hch
      rcases hch with h | h | h | h <;> subst h
      · exact Or.inl (b64Char_mem_alphabet _)
      · exact Or.inl (b64Char_mem_alphabet _)
      · exact Or.inr rfl
      · exact Or.inr rfl
  | [a, b], ch, hch => by
      simp only [b64encodeList, List.mem_cons, List.not_mem_nil, or_false] at hch
      rcases hch with h | h | h | h <;> subst h
      · exact Or.inl (b64Char_mem_alphabet _)
      · exact Or.inl (b64Char_mem_alphabet _)
      · exact Or.inl (b64Char_mem_alphabet _)
      · exact Or.inr rfl
  | a :: b :: c :: rest, ch, hch => by
      simp only [b64encodeList, List.mem_cons] at hch
      rcases hch with h | h | h | h | h
      · exact Or.inl (h ▸ b64Char_mem_alphabet _)
      · exact Or.inl (h ▸ b64Char_mem_alphabet _)
      · exact Or.inl (h ▸ b64Char_mem_alphabet _)
      · exact Or.inl (h ▸ b64Char_mem_alphabet _)
      · exact b64encode_chars rest ch h

/-! Helper lemmas about the JPEG byte-stream model. -/

theorem jpegEncode_bytes_lt (img : RawImage) (q : ℕ) : ∀ x ∈ jpegEncode img q, x < 256 := by
  intro x hx
  simp only [jpegEncode, List.mem_cons, List.not_mem_nil, or_false] at hx
  rcases hx with h | h | h | h | h | h | h | h | h | h <;> omega

theorem jpegHeaderInfo_jpegEncode (img : RawImage) (q : ℕ)
    (hw : img.width.toNat < 65536) (hh : img.height.toNat < 65536) :
    jpegHeaderInfo (jpegEncode img q) =
      some (img.width.toNat, img.height.toNat, img.mode.channels % 256) := by
  simp only [jpegEncode, jpegHeaderInfo]
  rw [if_pos (by simp)]
  have h1 : img.width.toNat / 256 % 256 * 256 + img.width.toNat % 256 = img.width.toNat := by omega
  have h2 : img.height.toNat / 256 % 256 * 256 + img.height.toNat % 256 = img.height.toNat := by
    omega
  rw [h1, h2]

/-! Helper lemmas about the resize arithmetic. -/

theorem floor_mul_div (w B m : ℤ) (hm : 0 < m) :
    ⌊(w : ℚ) * ((B : ℚ) / (m : ℚ))⌋ = w * B / m := by
  have hmt : ((m.toNat : ℕ) : ℤ) = m := Int.toNat_of_nonneg hm.le
  have hq : (w : ℚ) * ((B : ℚ) / (m : ℚ)) = ((w * B : ℤ) : ℚ) / ((m.toNat : ℕ) : ℚ) := by
    have : ((m.toNat : ℕ) : ℚ) = (m : ℚ) := by exact_mod_cast hmt
    rw [this]
    push_cast
    ring
  rw [hq, Rat.floor_intCast_div_natCast, hmt]

theorem pyInt_of_nonneg (q : ℚ) (h : 0 ≤ q) : pyInt q = ⌊q⌋ := if_pos h

theorem pyInt_mul_div (w B m : ℤ) (hm : 0 < m) (hw : 0 ≤ w) (hB : 0 ≤ B) :
    pyInt ((w : ℚ) * ((B : ℚ) / (m : ℚ))) = w * B / m := by
  rw [pyInt_of_nonneg, floor_mul_div w B m hm]
  apply mul_nonneg
  · exact_mod_cast hw
  · apply div_nonneg
    · exact_mod_cast hB
    · exact_mod_cast hm.le

theorem pyInt_nonpos (q : ℚ) (hq : q ≤ 0) : pyInt q ≤ 0 := by
  rw [pyInt]
  split
  · have h0 : q = 0 := le_antisymm hq (by assumption)
    simp [h0]
  · exact Int.ceil_le.mpr (by exact_mod_cast hq)

theorem resizeStep_of_le (img : RawImage) (B : ℤ)
    (h : max img.width img.height ≤ B) : resizeStep img B = img := by
  rw [resizeStep, if_neg (not_lt.mpr h)]

theorem resizeStep_of_gt (img : RawImage) (B : ℤ)
    (hgt : max img.width img.height > B)
    (hw : 0 < img.width) (hh : 0 < img.height) (hB : 0 ≤ B) :
    resizeStep img B =
      { img with
        width := img.width * B / max img.width img.height,
        height := img.height * B / max img.width img.height } := by
  have hm : 0 < max img.width img.height := lt_of_lt_of_le hw (le_max_left _ _)
  rw [resizeStep, if_pos hgt]
  simp only [RawImage.resize]
  rw [pyInt_mul_div _ _ _ hm hw.le hB, pyInt_mul_div _ _ _ hm hh.le hB]

/-! Helper lemmas about the binary64 floating-point model. -/

theorem rne_abs_le (x : ℚ) : |(rne x : ℚ) - x| ≤ 1/2 := by
  have h0 : (⌊x⌋ : ℚ) ≤ x := Int.floor_le x
  have h1 : x < ⌊x⌋ + 1 := Int.lt_floor_add_one x
  rw [rne]
  split
  · rw [abs_sub_comm, abs_of_nonneg (by linarith)]
    linarith
  · split
    · rw [abs_of_nonneg (by push_cast; linarith)]
      push_cast
      linarith
    · split
      · rw [abs_sub_comm, abs_of_nonneg (by linarith)]
        linarith
      · rw [abs_of_nonneg (by push_cast; linarith)]
        push_cast
        linarith

theorem rne_eq_of_lt (x : ℚ) (f : ℤ) (h1 : (f:ℚ) ≤ x) (h2 : x - f < 1/2) : rne x = f := by
  have hf : ⌊x⌋ = f := Int.floor_eq_iff.mpr ⟨h1, by linarith⟩
  rw [rne, hf, if_pos h2]

theorem rne_eq_of_gt (x : ℚ) (f : ℤ) (h1 : 1/2 < x - f) (h2 : x < f + 1) : rne x = f + 1 := by
  have hf : ⌊x⌋ = f := Int.floor_eq_iff.mpr ⟨by linarith, by linarith⟩
  rw [rne, hf, if_neg (by linarith), if_pos h1]

theorem log2_eq_of (q : ℚ) (l : ℤ) (hq : 0 < q)
    (h1 : (2:ℚ)^l ≤ q) (h2 : q < (2:ℚ)^(l+1)) : Int.log 2 q = l := by
  have hb : 1 < (2:ℕ) := by norm_num
  have hc : ((2:ℕ):ℚ) = (2:ℚ) := by norm_num
  have ha : l ≤ Int.log 2 q := (Int.zpow_le_iff_le_log hb hq).mp (by rw [hc]; exact h1)
  have hbd : Int.log 2 q < l + 1 := (Int.lt_zpow_iff_log_lt hb hq).mp (by rw [hc]; exact h2)
  omega

theorem fl64_of_pos (q : ℚ) (hq : 0 < q) : fl64 q = fl64Pos q := if_pos hq

theorem fl64_eval (q : ℚ) (l : ℤ) (hq : 0 < q)
    (h1 : (2:ℚ)^l ≤ q) (h2 : q < (2:ℚ)^(l+1)) :
    fl64 q = (rne (q * (2:ℚ)^(52 - l)) : ℚ) / (2:ℚ)^(52 - l) := by
  rw [fl64_of_pos q hq, fl64Pos, log2_eq_of q l hq h1 h2]

theorem fl64Pos_error (q : ℚ) (hq : 0 < q) : |fl64Pos q - q| ≤ q / 2^53 := by
  have hb : 1 < (2:ℕ) := by norm_num
  have hc : ((2:ℕ):ℚ) = (2:ℚ) := by norm_num
  have hlq : (2:ℚ)^(Int.log 2 q) ≤ q := by
    rw [← hc]
    exact Int.zpow_log_le_self hb hq
  have he : (0:ℚ) < (2:ℚ)^(52 - Int.log 2 q) := zpow_pos (by norm_num) _
  have hkey : |(rne (q * (2:ℚ)^(52 - Int.log 2 q)) : ℚ) - q * (2:ℚ)^(52 - Int.log 2 q)| ≤ 1/2 :=
    rne_abs_le _
  have hfl : fl64Pos q - q =
      ((rne (q * (2:ℚ)^(52 - Int.log 2 q)) : ℚ) - q * (2:ℚ)^(52 - Int.log 2 q)) /
        (2:ℚ)^(52 - Int.log 2 q) := by
    rw [fl64Pos]
    field_simp
    ring
  rw [hfl, abs_div, abs_of_pos he]
  have h3 : |(rne (q * (2:ℚ)^(52 - Int.log 2 q)) : ℚ) - q * (2:ℚ)^(52 - Int.log 2 q)| /
      (2:ℚ)^(52 - Int.log 2 q) ≤ (1/2) / (2:ℚ)^(52 - Int.log 2 q) :=
    (div_le_div_iff_of_pos_right he).mpr hkey
  refine le_trans h3 ?_
  rw [div_le_div_iff₀ he (by norm_num : (0:ℚ) < 2^53)]
  have hpow : (2:ℚ)^(Int.log 2 q) * (2:ℚ)^(52 - Int.log 2 q) = (2:ℚ)^(52:ℤ) := by
    rw [← zpow_add₀ (by norm_num : (2:ℚ) ≠ 0)]
    norm_num
  calc (1/2 : ℚ) * 2^53 = (2:ℚ)^(52:ℤ) := by norm_num
    _ = (2:ℚ)^(Int.log 2 q) * (2:ℚ)^(52 - Int.log 2 q) := hpow.symm
    _ ≤ q * (2:ℚ)^(52 - Int.log 2 q) := mul_le_mul_of_nonneg_right hlq he.le

theorem fl64_bounds (q : ℚ) (hq : 0 < q) :
    (1 - 1/2^53) * q ≤ fl64 q ∧ fl64 q ≤ (1 + 1/2^53) * q := by
  rw [fl64_of_pos q hq]
  have h := abs_le.mp (fl64Pos_error q hq)
  have hring : q / 2^53 = (1/2^53) * q := by ring
  rw [hring] at h
  constructor <;> nlinarith [h.1, h.2]


theorem float_dim_bounds (X m B : ℤ) (hX : 0 < X) (hXm : X ≤ m) (hB : 0 < B)
    (hBm : B < m) (hm16 : m ≤ 65535) :
    (X : ℚ) * ((B : ℚ) / (m : ℚ)) - 3/2 <
        (pyInt (fl64 ((X : ℚ) * fl64 ((B : ℚ) / (m : ℚ)))) : ℚ) ∧
    (pyInt (fl64 ((X : ℚ) * fl64 ((B : ℚ) / (m : ℚ)))) : ℚ) ≤
        (X : ℚ) * ((B : ℚ) / (m : ℚ)) + 1/2 := by
  have hm0 : (0:ℚ) < (m : ℚ) := by exact_mod_cast lt_trans hB hBm
  have hBq : (0:ℚ) < (B : ℚ) := by exact_mod_cast hB
  have hXq : (0:ℚ) < (X : ℚ) := by exact_mod_cast hX
  have hXub : (X : ℚ) ≤ 65535 := by exact_mod_cast le_trans hXm hm16
  have hr : (0:ℚ) < (B : ℚ) / (m : ℚ) := div_pos hBq hm0
  have hr1 : (B : ℚ) / (m : ℚ) < 1 := (div_lt_one hm0).mpr (by exact_mod_cast hBm)
  obtain ⟨hs1, hs2⟩ := fl64_bounds ((B : ℚ) / (m : ℚ)) hr
  have hs0 : 0 < fl64 ((B : ℚ) / (m : ℚ)) := by nlinarith
  have hp : 0 < (X : ℚ) * fl64 ((B : ℚ) / (m : ℚ)) := mul_pos hXq hs0
  obtain ⟨hv1, hv2⟩ := fl64_bounds ((X : ℚ) * fl64 ((B : ℚ) / (m : ℚ))) hp
  have ht_ub : (X : ℚ) * ((B : ℚ) / (m : ℚ)) ≤ 65535 := by nlinarith
  have ht_pos : 0 < (X : ℚ) * ((B : ℚ) / (m : ℚ)) := mul_pos hXq hr
  have hv_ub : fl64 ((X : ℚ) * fl64 ((B : ℚ) / (m : ℚ))) ≤
      (X : ℚ) * ((B : ℚ) / (m : ℚ)) + 1/2 := by nlinarith
  have hv_lb : (X : ℚ) * ((B : ℚ) / (m : ℚ)) - 1/2 ≤
      fl64 ((X : ℚ) * fl64 ((B : ℚ) / (m : ℚ))) := by nlinarith
  have hv_pos : 0 < fl64 ((X : ℚ) * fl64 ((B : ℚ) / (m : ℚ))) := by nlinarith
  rw [pyInt_of_nonneg _ hv_pos.le]
  constructor
  · have := Int.sub_one_lt_floor (fl64 ((X : ℚ) * fl64 ((B : ℚ) / (m : ℚ))))
    linarith
  · have := Int.floor_le (fl64 ((X : ℚ) * fl64 ((B : ℚ) / (m : ℚ))))
    linarith


theorem float_dim_le_bound (X m B : ℤ) (hX : 0 < X) (hXm : X ≤ m) (hB : 0 < B)
    (hBm : B < m) (hm16 : m ≤ 65535) :
    pyInt (fl64 ((X : ℚ) * fl64 ((B : ℚ) / (m : ℚ)))) ≤ B := by
  have hm0 : (0:ℚ) < (m : ℚ) := by exact_mod_cast lt_trans hB hBm
  have hBq : (0:ℚ) < (B : ℚ) := by exact_mod_cast hB
  have hr : (0:ℚ) < (B : ℚ) / (m : ℚ) := div_pos hBq hm0
  have h2 := (float_dim_bounds X m B hX hXm hB hBm hm16).2
  have hmB : (m : ℚ) * ((B : ℚ) / (m : ℚ)) = (B : ℚ) := by field_simp
  have ht : (X : ℚ) * ((B : ℚ) / (m : ℚ)) ≤ (B : ℚ) := by
    calc (X : ℚ) * ((B : ℚ) / (m : ℚ)) ≤ (m : ℚ) * ((B : ℚ) / (m : ℚ)) :=
          mul_le_mul_of_nonneg_right (by exact_mod_cast hXm) hr.le
      _ = (B : ℚ) := hmB
  have hlt : (pyInt (fl64 ((X : ℚ) * fl64 ((B : ℚ) / (m : ℚ)))) : ℚ) < ((B + 1 : ℤ) : ℚ) := by
    push_cast
    linarith
  have := (by exact_mod_cast hlt :
    pyInt (fl64 ((X : ℚ) * fl64 ((B : ℚ) / (m : ℚ)))) < B + 1)
  omega

theorem float_longest_lb (m B : ℤ) (hm : 0 < m) (hB : 0 < B)
    (hBm : B < m) (hm16 : m ≤ 65535) :
    B - 1 ≤ pyInt (fl64 ((m : ℚ) * fl64 ((B : ℚ) / (m : ℚ)))) := by
  have hm0 : (0:ℚ) < (m : ℚ) := by exact_mod_cast lt_trans hB hBm
  have h1 := (float_dim_bounds m m B hm le_rfl hB hBm hm16).1
  have hmB : (m : ℚ) * ((B : ℚ) / (m : ℚ)) = (B : ℚ) := by field_simp
  rw [hmB] at h1
  have hgt : ((B - 2 : ℤ) : ℚ) < (pyInt (fl64 ((m : ℚ) * fl64 ((B : ℚ) / (m : ℚ)))) : ℚ) := by
    push_cast
    linarith
  have := (by exact_mod_cast hgt :
    B - 2 < pyInt (fl64 ((m : ℚ) * fl64 ((B : ℚ) / (m : ℚ)))))
  omega


theorem resizeStepF_eq (img : RawImage) (B : ℤ) :
    resizeStepF img B =
      if max img.width img.height > B then
        img.resize
          (pyInt (fl64 ((img.width : ℚ) * fl64 ((B : ℚ) / ((max img.width img.height : ℤ) : ℚ)))),
           pyInt (fl64 ((img.height : ℚ) * fl64 ((B : ℚ) / ((max img.width img.height : ℤ) : ℚ)))))
      else img := rfl

theorem resizeStepF_of_gt (img : RawImage) (B : ℤ)
    (hgt : max img.width img.height > B) :
    resizeStepF img B =
      { img with
        width := pyInt (fl64 ((img.width : ℚ) *
          fl64 ((B : ℚ) / ((max img.width img.height : ℤ) : ℚ)))),
        height := pyInt (fl64 ((img.height : ℚ) *
          fl64 ((B : ℚ) / ((max img.width img.height : ℤ) : ℚ)))) } := by
  rw [resizeStepF_eq, if_pos hgt]
  rfl

theorem scenarioA_scale :
    fl64 (((2048:ℤ):ℚ) / ((4000:ℤ):ℚ)) = 4611686018427388 / 9007199254740992 := by
  have hq : (((2048:ℤ):ℚ) / ((4000:ℤ):ℚ)) = 64/125 := by norm_num
  rw [hq, fl64_eval (64/125) (-1) (by norm_num) (by norm_num) (by norm_num)]
  rw [show (64/125 : ℚ) * (2:ℚ)^(52 - (-1:ℤ)) = 576460752303423488/125 by norm_num]
  rw [rne_eq_of_gt (576460752303423488/125) 4611686018427387 (by norm_num) (by norm_num)]
  norm_num

theorem scenarioA_width :
    pyInt (fl64 (((4000:ℤ):ℚ) * fl64 (((2048:ℤ):ℚ) / ((4000:ℤ):ℚ)))) = 2048 := by
  rw [scenarioA_scale]
  rw [show ((4000:ℤ):ℚ) * (4611686018427388 / 9007199254740992 : ℚ) =
      144115188075855875/70368744177664 by norm_num]
  rw [fl64_eval (144115188075855875/70368744177664) 11 (by norm_num) (by norm_num) (by norm_num)]
  rw [show (144115188075855875/70368744177664 : ℚ) * (2:ℚ)^(52 - (11:ℤ)) =
      144115188075855875/32 by norm_num]
  rw [rne_eq_of_lt (144115188075855875/32) 4503599627370496 (by norm_num) (by norm_num)]
  rw [show ((4503599627370496:ℤ):ℚ) / (2:ℚ)^(52 - (11:ℤ)) = ((2048:ℤ):ℚ) by norm_num]
  rw [pyInt_of_nonneg _ (by norm_num), Int.floor_intCast]

theorem scenarioA_height :
    pyInt (fl64 (((3000:ℤ):ℚ) * fl64 (((2048:ℤ):ℚ) / ((4000:ℤ):ℚ)))) = 1536 := by
  rw [scenarioA_scale]
  rw [show ((3000:ℤ):ℚ) * (4611686018427388 / 9007199254740992 : ℚ) =
      432345564227567625/281474976710656 by norm_num]
  rw [fl64_eval (432345564227567625/281474976710656) 10 (by norm_num) (by norm_num) (by norm_num)]
  rw [show (432345564227567625/281474976710656 : ℚ) * (2:ℚ)^(52 - (10:ℤ)) =
      432345564227567625/64 by norm_num]
  rw [rne_eq_of_lt (432345564227567625/64) 6755399441055744 (by norm_num) (by norm_num)]
  rw [show ((6755399441055744:ℤ):ℚ) / (2:ℚ)^(52 - (10:ℤ)) = ((1536:ℤ):ℚ) by norm_num]
  rw [pyInt_of_nonneg _ (by norm_num), Int.floor_intCast]

theorem counterexampleF_height :
    pyInt (fl64 (((3001:ℤ):ℚ) * fl64 (((2048:ℤ):ℚ) / ((4000:ℤ):ℚ)))) = 1536 := by
  rw [scenarioA_scale]
  rw [show ((3001:ℤ):ℚ) * (4611686018427388 / 9007199254740992 : ℚ) =
      3459917435325147847/2251799813685248 by norm_num]
  rw [fl64_eval (3459917435325147847/2251799813685248) 10 (by norm_num) (by norm_num)
    (by norm_num)]
  rw [show (3459917435325147847/2251799813685248 : ℚ) * (2:ℚ)^(52 - (10:ℤ)) =
      3459917435325147847/512 by norm_num]
  rw [rne_eq_of_lt (3459917435325147847/512) 6757651240869429 (by norm_num) (by norm_num)]
  rw [show ((6757651240869429:ℤ):ℚ) / (2:ℚ)^(52 - (10:ℤ)) =
      ((6757651240869429:ℤ):ℚ) / ((4398046511104:ℕ):ℚ) by norm_num]
  rw [pyInt_of_nonneg _ (by positivity), Rat.floor_intCast_div_natCast]
  decide

theorem jpegHeaderInfo_jpegEncode_mod (img : RawImage) (q : ℕ) :
    jpegHeaderInfo (jpegEncode img q) =
      some (img.width.toNat % 65536, img.height.toNat % 65536, img.mode.channels % 256) := by
  simp only [jpegEncode, jpegHeaderInfo]
  rw [if_pos (by simp)]
  have h1 : img.width.toNat / 256 % 256 * 256 + img.width.toNat % 256 =
      img.width.toNat % 65536 := by omega
  have h2 : img.height.toNat / 256 % 256 * 256 + img.height.toNat % 256 =
      img.height.toNat % 65536 := by omega
  rw [h1, h2]

/-! Helper lemmas about the fallible pipeline. -/

theorem resizeChecked_spec (img : RawImage) (B : ℤ) :
    resizeChecked img B = Except.ok (resizeStep img B) ∨
    resizeChecked img B = Except.error PILError.valueError := by
  by_cases hc : max img.width img.height > B
  · simp only [resizeChecked, resizeStep, if_pos hc, imageResize]
    split
    · exact Or.inl rfl
    · exact Or.inr rfl
  · simp only [resizeChecked, resizeStep, if_neg hc]
    exact Or.inl trivial

theorem resizeStep_eq (img : RawImage) (B : ℤ) :
    resizeStep img B =
      if max img.width img.height > B then
        img.resize
          (pyInt ((img.width : ℚ) * ((B : ℚ) / ((max img.width img.height : ℤ) : ℚ))),
           pyInt ((img.height : ℚ) * ((B : ℚ) / ((max img.width img.height : ℤ) : ℚ))))
      else img := rfl

theorem resizeChecked_eq (img : RawImage) (B : ℤ) :
    resizeChecked img B =
      if max img.width img.height > B then
        imageResize img
          (pyInt ((img.width : ℚ) * ((B : ℚ) / ((max img.width img.height : ℤ) : ℚ))),
           pyInt ((img.height : ℚ) * ((B : ℚ) / ((max img.width img.height : ℤ) : ℚ))))
      else Except.ok img := rfl

theorem resizeChecked_eq_error (img : RawImage) (B : ℤ)
    (hgt : max img.width img.height > B)
    (hbad : ¬(1 ≤ (resizeStep img B).width ∧ 1 ≤ (resizeStep img B).height)) :
    resizeChecked img B = Except.error PILError.valueError := by
  have hguard :
      ¬(1 ≤ (pyInt ((img.width : ℚ) * ((B : ℚ) / ((max img.width img.height : ℤ) : ℚ))),
          pyInt ((img.height : ℚ) * ((B : ℚ) / ((max img.width img.height : ℤ) : ℚ)))).1 ∧
        1 ≤ (pyInt ((img.width : ℚ) * ((B : ℚ) / ((max img.width img.height : ℤ) : ℚ))),
          pyInt ((img.height : ℚ) * ((B : ℚ) / ((max img.width img.height : ℤ) : ℚ)))).2) := by
    intro hcon
    apply hbad
    rw [resizeStep_eq, if_pos hgt]
    exact ⟨hcon.1, hcon.2⟩
  rw [resizeChecked_eq, if_pos hgt, imageResize, if_neg hguard]

theorem imageSaveJPEG_spec (img : RawImage) (q : ℕ) :
    imageSaveJPEG img q = Except.ok (jpegEncode img q) ∨
    imageSaveJPEG img q = Except.error PILError.valueError := by
  rw [imageSaveJPEG]
  split
  · exact Or.inl rfl
  · exact Or.inr rfl

theorem resize_and_encode_imageFile (raw : List ℕ) (img : RawImage) (B : ℤ) :
    resize_and_encode (Source.imageFile raw img) B =
      match resizeChecked img B with
      | Except.error e => Except.error e
      | Except.ok resized =>
          match imageSaveJPEG (resized.convert Mode.RGB) QUALITY with
          | Except.error e => Except.error e
          | Except.ok bytes => Except.ok (String.mk (b64encodeList bytes)) := rfl

theorem resize_and_encode_ok_inv (raw : List ℕ) (img : RawImage) (B : ℤ) (s : String)
    (h : resize_and_encode (Source.imageFile raw img) B = Except.ok s) :
    s = String.mk (b64encodeList (jpegEncode ((resizeStep img B).convert Mode.RGB) QUALITY)) ∧
    resizeChecked img B = Except.ok (resizeStep img B) ∧
    imageSaveJPEG ((resizeStep img B).convert Mode.RGB) QUALITY =
      Except.ok (jpegEncode ((resizeStep img B).convert Mode.RGB) QUALITY) := by
  rw [resize_and_encode_imageFile] at h
  rcases resizeChecked_spec img B with hr | hr
  · rcases imageSaveJPEG_spec ((resizeStep img B).convert Mode.RGB) QUALITY with hs | hs
    · simp only [hr, hs, Except.ok.injEq] at h
      exact ⟨h.symm, hr, hs⟩
    · simp only [hr, hs] at h
      exact Except.noConfusion h
  · simp only [hr] at h
    exact Except.noConfusion h

theorem resize_and_encode_never_invalid (src : Source) (B : ℤ) :
    resize_and_encode src B ≠ Except.error PILError.invalidArgument := by
  cases src with
  | missingFile => simp [resize_and_encode, imageOpen]
  | undecodableBytes raw => simp [resize_and_encode, imageOpen]
  | imageFile raw img =>
      rw [resize_and_encode_imageFile]
      rcases resizeChecked_spec img B with hr | hr
      · rcases imageSaveJPEG_spec ((resizeStep img B).convert Mode.RGB) QUALITY with hs | hs <;>
          simp [hr, hs]
      · simp [hr]

theorem resize_and_encode_ok_of (raw : List ℕ) (img : RawImage) (B : ℤ)
    (hle : max img.width img.height ≤ B)
    (hw : 0 < img.width) (hh : 0 < img.height)
    (hw16 : img.width < 65536) (hh16 : img.height < 65536) :
    resize_and_encode (Source.imageFile raw img) B =
      Except.ok (String.mk (b64encodeList (jpegEncode (img.convert Mode.RGB) QUALITY))) := by
  have hr : resizeChecked img B = Except.ok img := by
    rw [resizeChecked, if_neg (not_lt.mpr hle)]
  have hguard : 1 ≤ (RawImage.convert img Mode.RGB).width ∧
      (RawImage.convert img Mode.RGB).width ≤ 65535 ∧
      1 ≤ (RawImage.convert img Mode.RGB).height ∧
      (RawImage.convert img Mode.RGB).height ≤ 65535 := by
    refine ⟨?_, ?_, ?_, ?_⟩ <;> simp only [RawImage.convert] <;> omega
  have hs : imageSaveJPEG (img.convert Mode.RGB) QUALITY =
      Except.ok (jpegEncode (img.convert Mode.RGB) QUALITY) := by
    rw [imageSaveJPEG, if_pos hguard]
  rw [resize_and_encode_imageFile]
  simp only [hr, hs]

/-! Claim theorems. -/

/-- Claim C1, counterexample.  The claim says the resampled height is
`round(H × scale)`, but the code computes `int(H × scale)`, which truncates:
for a 4000×3001 input with bound 2048 the scaled height is 1536.512 (in
binary64, 1536.512000000000057…), the code produces 1536 — in the exact
model and in the binary64 model alike — while the spec's rounding formula
(`specNewSize`, defined from the spec's words) produces 1537. -/
theorem resize_round_counterexample :
    (resizeStep ⟨4000, 3001, Mode.RGB⟩ 2048).height ≠ (specNewSize 4000 3001 2048).2 ∧
    (resizeStep ⟨4000, 3001, Mode.RGB⟩ 2048).height = 1536 ∧
    (resizeStepF ⟨4000, 3001, Mode.RGB⟩ 2048).height = 1536 ∧
    (specNewSize 4000 3001 2048).2 = 1537 := by
  have hcode : (resizeStep ⟨4000, 3001, Mode.RGB⟩ 2048).height = 1536 := by
    rw [resizeStep_of_gt _ _ (by decide) (by decide) (by decide) (by decide)]
    decide
  have hcodeF : (resizeStepF ⟨4000, 3001, Mode.RGB⟩ 2048).height = 1536 := by
    rw [resizeStepF_of_gt ⟨4000, 3001, Mode.RGB⟩ 2048 (by decide)]
    show pyInt (fl64 (((3001:ℤ):ℚ) *
      fl64 (((2048:ℤ):ℚ) / ((max (4000:ℤ) 3001 : ℤ):ℚ)))) = 1536
    rw [show (max (4000:ℤ) 3001 : ℤ) = 4000 from by decide]
    exact counterexampleF_height
  have hspec : (specNewSize 4000 3001 2048).2 = 1537 := by
    rw [specNewSize, if_pos (by decide)]
    show round ((3001:ℚ) * ((2048:ℚ) / ((max (4000:ℤ) 3001 : ℤ) : ℚ))) = 1537
    have hmax : (max (4000:ℤ) 3001) = 4000 := by decide
    rw [hmax, round_eq]
    have hq : (3001:ℚ) * ((2048:ℚ) / (((4000:ℤ)) : ℚ)) + 1/2 =
        ((384253:ℤ) : ℚ) / ((250:ℕ) : ℚ) := by
      norm_num
    rw [hq, Rat.floor_intCast_div_natCast]
    decide
  refine ⟨?_, hcode, hcodeF, hspec⟩
  rw [hcode, hspec]
  decide

/-- Claim C1, amended.  When `max(W, H) > max_dimension > 0` (dimensions in
the JPEG-encodable 16-bit range) the code resamples to
`new_width = int(W × scale)` and `new_height = int(H × scale)` with
`scale = max_dimension / max(W, H)` computed in binary64 floating point —
truncation, not round.  Each output dimension lies within 3/2 of the exactly
scaled value (aspect ratio preserved within rounding tolerance) and within 1
of the exact-arithmetic floor `⌊W·B/max(W,H)⌋`; the longest output dimension
is the bound `B` or, when float rounding loses a pixel (as at a 49×49 input
with bound 1, where binary64 gives `int(49 × (1/49)) = 0`), `B - 1`. -/
theorem resize_formula_binary64_floor (W H B : ℤ) (mo : Mode)
    (hW : 0 < W) (hH : 0 < H) (hB : 0 < B)
    (hW16 : W < 65536) (hH16 : H < 65536) (hgt : max W H > B) :
    resizeStepF ⟨W, H, mo⟩ B =
      ⟨pyInt (fl64 ((W : ℚ) * fl64 ((B : ℚ) / ((max W H : ℤ) : ℚ)))),
       pyInt (fl64 ((H : ℚ) * fl64 ((B : ℚ) / ((max W H : ℤ) : ℚ)))), mo⟩ ∧
    (B - 1 ≤ max (resizeStepF ⟨W, H, mo⟩ B).width (resizeStepF ⟨W, H, mo⟩ B).height ∧
      max (resizeStepF ⟨W, H, mo⟩ B).width (resizeStepF ⟨W, H, mo⟩ B).height ≤ B) ∧
    ((W : ℚ) * ((B : ℚ) / ((max W H : ℤ) : ℚ)) - 3/2 <
        ((resizeStepF ⟨W, H, mo⟩ B).width : ℚ) ∧
      ((resizeStepF ⟨W, H, mo⟩ B).width : ℚ) ≤
        (W : ℚ) * ((B : ℚ) / ((max W H : ℤ) : ℚ)) + 1/2) ∧
    ((H : ℚ) * ((B : ℚ) / ((max W H : ℤ) : ℚ)) - 3/2 <
        ((resizeStepF ⟨W, H, mo⟩ B).height : ℚ) ∧
      ((resizeStepF ⟨W, H, mo⟩ B).height : ℚ) ≤
        (H : ℚ) * ((B : ℚ) / ((max W H : ℤ) : ℚ)) + 1/2) ∧
    |(resizeStepF ⟨W, H, mo⟩ B).width - (resizeStep ⟨W, H, mo⟩ B).width| ≤ 1 ∧
    |(resizeStepF ⟨W, H, mo⟩ B).height - (resizeStep ⟨W, H, mo⟩ B).height| ≤ 1 := by
  have hm : (0:ℤ) < max W H := lt_of_lt_of_le hW (le_max_left _ _)
  have hBm : B < max W H := hgt
  have hm16 : max W H ≤ 65535 := max_le (by omega) (by omega)
  have hstep : resizeStepF ⟨W, H, mo⟩ B =
      ⟨pyInt (fl64 ((W : ℚ) * fl64 ((B : ℚ) / ((max W H : ℤ) : ℚ)))),
       pyInt (fl64 ((H : ℚ) * fl64 ((B : ℚ) / ((max W H : ℤ) : ℚ)))), mo⟩ :=
    resizeStepF_of_gt ⟨W, H, mo⟩ B hgt
  have hestep : resizeStep ⟨W, H, mo⟩ B =
      ⟨W * B / max W H, H * B / max W H, mo⟩ :=
    resizeStep_of_gt ⟨W, H, mo⟩ B hgt hW hH hB.le
  have hWdim := float_dim_bounds W (max W H) B hW (le_max_left _ _) hB hBm hm16
  have hHdim := float_dim_bounds H (max W H) B hH (le_max_right _ _) hB hBm hm16
  have hWle := float_dim_le_bound W (max W H) B hW (le_max_left _ _) hB hBm hm16
  have hHle := float_dim_le_bound H (max W H) B hH (le_max_right _ _) hB hBm hm16
  refine ⟨hstep, ⟨?_, ?_⟩, ?_, ?_, ?_, ?_⟩
  · rw [hstep]
    rcases max_cases W H with ⟨hmax, hge⟩ | ⟨hmax, hlt⟩
    · have hlb := float_longest_lb (max W H) B hm hB hBm hm16
      rw [hmax] at hlb ⊢
      exact le_trans hlb (le_max_left _ _)
    · have hlb := float_longest_lb (max W H) B hm hB hBm hm16
      rw [hmax] at hlb ⊢
      exact le_trans hlb (le_max_right _ _)
  · rw [hstep]
    exact max_le hWle hHle
  · rw [hstep]
    exact ⟨hWdim.1, hWdim.2⟩
  · rw [hstep]
    exact ⟨hHdim.1, hHdim.2⟩
  · rw [hstep, hestep]
    have hfl : ⌊(W : ℚ) * ((B : ℚ) / ((max W H : ℤ) : ℚ))⌋ = W * B / max W H :=
      floor_mul_div W B (max W H) hm
    have h1 : ((W * B / max W H : ℤ) : ℚ) ≤ (W : ℚ) * ((B : ℚ) / ((max W H : ℤ) : ℚ)) := by
      rw [← hfl]
      exact_mod_cast Int.floor_le _
    have h2 : (W : ℚ) * ((B : ℚ) / ((max W H : ℤ) : ℚ)) - 1 < ((W * B / max W H : ℤ) : ℚ) := by
      rw [← hfl]
      have := Int.sub_one_lt_floor ((W : ℚ) * ((B : ℚ) / ((max W H : ℤ) : ℚ)))
      exact_mod_cast this
    have ha : (pyInt (fl64 ((W : ℚ) * fl64 ((B : ℚ) / ((max W H : ℤ) : ℚ)))) : ℚ) <
        ((W * B / max W H + 2 : ℤ) : ℚ) := by
      rw [show ((W * B / max W H + 2 : ℤ) : ℚ) = ((W * B / max W H : ℤ) : ℚ) + 2 by
        push_cast
        ring]
      linarith [hWdim.2]
    have hb : ((W * B / max W H : ℤ) : ℚ) <
        ((pyInt (fl64 ((W : ℚ) * fl64 ((B : ℚ) / ((max W H : ℤ) : ℚ)))) + 2 : ℤ) : ℚ) := by
      rw [show ((pyInt (fl64 ((W : ℚ) * fl64 ((B : ℚ) / ((max W H : ℤ) : ℚ)))) + 2 : ℤ) : ℚ) =
          (pyInt (fl64 ((W : ℚ) * fl64 ((B : ℚ) / ((max W H : ℤ) : ℚ)))) : ℚ) + 2 by
        push_cast
        ring]
      linarith [hWdim.1]
    have ha2 := (by exact_mod_cast ha :
      pyInt (fl64 ((W : ℚ) * fl64 ((B : ℚ) / ((max W H : ℤ) : ℚ)))) < W * B / max W H + 2)
    have hb2 := (by exact_mod_cast hb :
      W * B / max W H < pyInt (fl64 ((W : ℚ) * fl64 ((B : ℚ) / ((max W H : ℤ) : ℚ)))) + 2)
    have habs : |pyInt (fl64 ((W : ℚ) * fl64 ((B : ℚ) / ((max W H : ℤ) : ℚ)))) -
        (W * B / max W H)| ≤ 1 := by
      rw [abs_le]
      omega
    exact habs
  · rw [hstep, hestep]
    have hfl : ⌊(H : ℚ) * ((B : ℚ) / ((max W H : ℤ) : ℚ))⌋ = H * B / max W H :=
      floor_mul_div H B (max W H) hm
    have h1 : ((H * B / max W H : ℤ) : ℚ) ≤ (H : ℚ) * ((B : ℚ) / ((max W H : ℤ) : ℚ)) := by
      rw [← hfl]
      exact_mod_cast Int.floor_le _
    have h2 : (H : ℚ) * ((B : ℚ) / ((max W H : ℤ) : ℚ)) - 1 < ((H * B / max W H : ℤ) : ℚ) := by
      rw [← hfl]
      have := Int.sub_one_lt_floor ((H : ℚ) * ((B : ℚ) / ((max W H : ℤ) : ℚ)))
      exact_mod_cast this
    have ha : (pyInt (fl64 ((H : ℚ) * fl64 ((B : ℚ) / ((max W H : ℤ) : ℚ)))) : ℚ) <
        ((H * B / max W H + 2 : ℤ) : ℚ) := by
      rw [show ((H * B / max W H + 2 : ℤ) : ℚ) = ((H * B / max W H : ℤ) : ℚ) + 2 by
        push_cast
        ring]
      linarith [hHdim.2]
    have hb : ((H * B / max W H : ℤ) : ℚ) <
        ((pyInt (fl64 ((H : ℚ) * fl64 ((B : ℚ) / ((max W H : ℤ) : ℚ)))) + 2 : ℤ) : ℚ) := by
      rw [show ((pyInt (fl64 ((H : ℚ) * fl64 ((B : ℚ) / ((max W H : ℤ) : ℚ)))) + 2 : ℤ) : ℚ) =
          (pyInt (fl64 ((H : ℚ) * fl64 ((B : ℚ) / ((max W H : ℤ) : ℚ)))) : ℚ) + 2 by
        push_cast
        ring]
      linarith [hHdim.1]
    have ha2 := (by exact_mod_cast ha :
      pyInt (fl64 ((H : ℚ) * fl64 ((B : ℚ) / ((max W H : ℤ) : ℚ)))) < H * B / max W H + 2)
    have hb2 := (by exact_mod_cast hb :
      H * B / max W H < pyInt (fl64 ((H : ℚ) * fl64 ((B : ℚ) / ((max W H : ℤ) : ℚ)))) + 2)
    have habs : |pyInt (fl64 ((H : ℚ) * fl64 ((B : ℚ) / ((max W H : ℤ) : ℚ)))) -
        (H * B / max W H)| ≤ 1 := by
      rw [abs_le]
      omega
    exact habs

/-- Witness for C1: the spec's Scenario A input, a 4000×3000 image with
bound 2048, is resized to exactly 2048×1536 — verified through the binary64
model: the float scale is 0.512 + 2^-53-scale excess, and both products
round to exactly 2048.0 and 1536.0 before `int()` truncates. -/
theorem resize_formula_binary64_floor_witness :
    (0:ℤ) < 4000 ∧ (0:ℤ) < 3000 ∧ (0:ℤ) < 2048 ∧ (4000:ℤ) < 65536 ∧ (3000:ℤ) < 65536 ∧
    max (4000:ℤ) 3000 > 2048 ∧
    resizeStepF ⟨4000, 3000, Mode.RGB⟩ 2048 = ⟨2048, 1536, Mode.RGB⟩ := by
  refine ⟨by decide, by decide, by decide, by decide, by decide, by decide, ?_⟩
  have h := (resize_formula_binary64_floor 4000 3000 2048 Mode.RGB (by decide) (by decide) (by decide)
    (by decide) (by decide) (by decide)).1
  rw [h]
  rw [show (max (4000:ℤ) 3000 : ℤ) = 4000 from by decide]
  rw [scenarioA_width, scenarioA_height]

/-- Claim C2: when `max(W, H) ≤ max_dimension` (boundary case included) the
dimensions pass through unchanged — the output JPEG stream records exactly
the input width and height, and no upscaling ever occurs. -/
theorem no_upscale_within_bound (raw : List ℕ) (img : RawImage) (B : ℤ)
    (hw : 0 < img.width) (hh : 0 < img.height)
    (hw16 : img.width < 65536) (hh16 : img.height < 65536)
    (hle : max img.width img.height ≤ B) :
    ∃ s, resize_and_encode (Source.imageFile raw img) B = Except.ok s ∧
      ∃ bytes, b64decodeString s = some bytes ∧
        jpegHeaderInfo bytes = some (img.width.toNat, img.height.toNat, 3) := by
  refine ⟨String.mk (b64encodeList (jpegEncode (img.convert Mode.RGB) QUALITY)),
    resize_and_encode_ok_of raw img B hle hw hh hw16 hh16,
    jpegEncode (img.convert Mode.RGB) QUALITY,
    b64_roundtrip _ (jpegEncode_bytes_lt _ _), ?_⟩
  have h1 : ((RawImage.convert img Mode.RGB).width).toNat < 65536 := by
    show img.width.toNat < 65536
    omega
  have h2 : ((RawImage.convert img Mode.RGB).height).toNat < 65536 := by
    show img.height.toNat < 65536
    omega
  rw [jpegHeaderInfo_jpegEncode _ _ h1 h2]
  rfl

/-- Witness for C2: the spec's Scenario B input, a 1024×768 image with bound
2048, comes out with dimensions unchanged at 1024×768. -/
theorem no_upscale_within_bound_witness :
    (0:ℤ) < 1024 ∧ (0:ℤ) < 768 ∧ (1024:ℤ) < 65536 ∧ (768:ℤ) < 65536 ∧
    max (1024:ℤ) 768 ≤ 2048 ∧
    (∃ s, resize_and_encode (Source.imageFile [] ⟨1024, 768, Mode.RGB⟩) 2048 = Except.ok s ∧
      ∃ bytes, b64decodeString s = some bytes ∧
        jpegHeaderInfo bytes = some (1024, 768, 3)) :=
  ⟨by decide, by decide, by decide, by decide, by decide,
    no_upscale_within_bound [] ⟨1024, 768, Mode.RGB⟩ 2048
      (by decide) (by decide) (by decide) (by decide) (by decide)⟩

/-- Claim C3, counterexample.  With bound 0 on a 4000×3000 image the call does
not fail with `InvalidArgumentError`: the function performs no validation of
`max_dimension`, enters the scaling branch and computes the degenerate target
size (0, 0). -/
theorem bound_zero_no_invalid_argument_error :
    resize_and_encode (Source.imageFile [] ⟨4000, 3000, Mode.RGB⟩) 0 ≠
      Except.error PILError.invalidArgument ∧
    resizeStep ⟨4000, 3000, Mode.RGB⟩ 0 = ⟨0, 0, Mode.RGB⟩ := by
  constructor
  · exact resize_and_encode_never_invalid _ 0
  · rw [resizeStep_of_gt ⟨4000, 3000, Mode.RGB⟩ 0 (by decide) (by decide) (by decide) le_rfl]
    decide

/-- Claim C3, amended.  The code never raises `InvalidArgumentError` on any
input: a non-positive `max_dimension` is not rejected; instead the scaling
branch runs (any positive-dimension image satisfies `max(W, H) > bound`) and
truncation produces non-positive target dimensions, so the failure is left to
the imaging library downstream rather than surfacing as a validation error. -/
theorem no_bound_validation (src : Source) (B : ℤ) (hB : B ≤ 0) :
    resize_and_encode src B ≠ Except.error PILError.invalidArgument ∧
    (∀ raw img, src = Source.imageFile raw img → 0 < img.width → 0 < img.height →
      (resizeStep img B).width ≤ 0 ∧ (resizeStep img B).height ≤ 0) := by
  constructor
  · exact resize_and_encode_never_invalid src B
  · rintro raw img rfl hw hh
    have hgt : max img.width img.height > B :=
      lt_of_le_of_lt hB (lt_of_lt_of_le hw (le_max_left _ _))
    have hm : (0:ℚ) < ((max img.width img.height : ℤ) : ℚ) := by
      exact_mod_cast lt_of_lt_of_le hw (le_max_left _ _)
    have hBq : ((B : ℤ) : ℚ) ≤ 0 := by exact_mod_cast hB
    have hdiv : ((B : ℤ) : ℚ) / ((max img.width img.height : ℤ) : ℚ) ≤ 0 :=
      div_nonpos_iff.mpr (Or.inr ⟨hBq, hm.le⟩)
    rw [resizeStep, if_pos hgt]
    constructor
    · apply pyInt_nonpos
      have hwq : (0:ℚ) ≤ (img.width : ℚ) := by exact_mod_cast hw.le
      calc (img.width : ℚ) * (((B : ℤ) : ℚ) / ((max img.width img.height : ℤ) : ℚ))
          ≤ (img.width : ℚ) * 0 := mul_le_mul_of_nonneg_left hdiv hwq
        _ = 0 := by ring
    · apply pyInt_nonpos
      have hhq : (0:ℚ) ≤ (img.height : ℚ) := by exact_mod_cast hh.le
      calc (img.height : ℚ) * (((B : ℤ) : ℚ) / ((max img.width img.height : ℤ) : ℚ))
          ≤ (img.height : ℚ) * 0 := mul_le_mul_of_nonneg_left hdiv hhq
        _ = 0 := by ring

/-- Witness for C3 (amended): the bound-0 call on a 4×3 image raises no
`InvalidArgumentError` and computes non-positive target dimensions. -/
theorem no_bound_validation_witness :
    (0:ℤ) ≤ 0 ∧
    (resize_and_encode (Source.imageFile [] ⟨4, 3, Mode.RGB⟩) 0 ≠
        Except.error PILError.invalidArgument ∧
      (∀ raw img, Source.imageFile ([] : List ℕ) ⟨4, 3, Mode.RGB⟩ = Source.imageFile raw img →
        0 < img.width → 0 < img.height →
        (resizeStep img 0).width ≤ 0 ∧ (resizeStep img 0).height ≤ 0)) :=
  ⟨le_rfl, no_bound_validation (Source.imageFile [] ⟨4, 3, Mode.RGB⟩) 0 le_rfl⟩

/-- Claim C4: opening a source whose bytes are not a decodable image raises
the decode error (`PIL.UnidentifiedImageError`, the spec's `DecodeError`),
for every byte content and every bound. -/
theorem undecodable_source_decode_error (raw : List ℕ) (B : ℤ) :
    resize_and_encode (Source.undecodableBytes raw) B = Except.error PILError.decodeError := rfl

/-- Claim C5: an I/O failure reaching the source propagates as the source
error (`FileNotFoundError`, the spec's `SourceUnavailableError`), which is a
distinct error from both the decode error and the invalid-argument error. -/
theorem missing_source_distinct_error (B : ℤ) :
    resize_and_encode Source.missingFile B = Except.error PILError.sourceUnavailable ∧
    PILError.sourceUnavailable ≠ PILError.decodeError ∧
    PILError.sourceUnavailable ≠ PILError.invalidArgument :=
  ⟨rfl, by decide, by decide⟩

/-- Claim C6, counterexample.  Not every decodable input succeeds: a
1×10000 image at the default bound 2048 has truncated target width
`int(1 × 2048/10000) = 0`, below 1, so the imaging library raises a
`ValueError` and the call returns no output at all — the failure has nothing
to do with channel layout, but it refutes "succeeds without error" as a
universal over decodable inputs. -/
theorem extreme_aspect_input_fails :
    resize_and_encode (Source.imageFile [] ⟨1, 10000, Mode.RGBA⟩) 2048 =
      Except.error PILError.valueError ∧
    ∀ s, resize_and_encode (Source.imageFile [] ⟨1, 10000, Mode.RGBA⟩) 2048 ≠ Except.ok s := by
  have hgt : max (1:ℤ) 10000 > 2048 := by decide
  have hw0 : (resizeStep ⟨1, 10000, Mode.RGBA⟩ 2048).width = 0 := by
    rw [resizeStep_of_gt ⟨1, 10000, Mode.RGBA⟩ 2048 hgt (by decide) (by decide) (by decide)]
    decide
  have hr : resizeChecked ⟨1, 10000, Mode.RGBA⟩ 2048 = Except.error PILError.valueError := by
    apply resizeChecked_eq_error _ _ hgt
    intro hcon
    rw [hw0] at hcon
    exact absurd hcon.1 (by decide)
  constructor
  · rw [resize_and_encode_imageFile]
    simp only [hr]
  · intro s hsok
    rw [resize_and_encode_imageFile] at hsok
    simp only [hr] at hsok
    exact Except.noConfusion hsok

/-- Claim C6, amended.  The call's outcome is entirely independent of the
input's channel layout — grayscale, RGB, RGBA and CMYK inputs with the same
dimensions behave identically, so transparency or CMYK color never causes a
failure — and whenever the call succeeds its output decodes to a JPEG stream
recording exactly 3 color channels: `img.convert("RGB")` flattens every
layout and drops any alpha channel before encoding. -/
theorem output_three_channels (raw : List ℕ) (w h : ℤ) (mo mo' : Mode) (B : ℤ) :
    resize_and_encode (Source.imageFile raw ⟨w, h, mo⟩) B =
      resize_and_encode (Source.imageFile raw ⟨w, h, mo'⟩) B ∧
    ∀ s, resize_and_encode (Source.imageFile raw ⟨w, h, mo⟩) B = Except.ok s →
      ∃ bytes wd ht, b64decodeString s = some bytes ∧
        jpegHeaderInfo bytes = some (wd, ht, 3) := by
  constructor
  · rw [resize_and_encode_imageFile, resize_and_encode_imageFile]
    simp only [resizeChecked_eq, imageResize, RawImage.resize, RawImage.convert]
    split_ifs <;> simp
  · intro s hs
    obtain ⟨hseq, -, -⟩ := resize_and_encode_ok_inv raw ⟨w, h, mo⟩ B s hs
    subst hseq
    refine ⟨jpegEncode ((resizeStep ⟨w, h, mo⟩ B).convert Mode.RGB) QUALITY,
      ((resizeStep ⟨w, h, mo⟩ B).convert Mode.RGB).width.toNat % 65536,
      ((resizeStep ⟨w, h, mo⟩ B).convert Mode.RGB).height.toNat % 65536,
      b64_roundtrip _ (jpegEncode_bytes_lt _ _), ?_⟩
    exact jpegHeaderInfo_jpegEncode_mod _ _

/-- Witness for C6 (amended): a 4×3 RGBA image behaves exactly as the same
image in RGB, and its successful output decodes to a 3-channel stream. -/
theorem output_three_channels_witness :
    (resize_and_encode (Source.imageFile [] ⟨4, 3, Mode.RGBA⟩) 2048 =
      resize_and_encode (Source.imageFile [] ⟨4, 3, Mode.RGB⟩) 2048) ∧
    ∃ bytes wd ht,
      b64decodeString (String.mk (b64encodeList (jpegEncode
        ((resizeStep ⟨4, 3, Mode.RGBA⟩ 2048).convert Mode.RGB) QUALITY))) = some bytes ∧
      jpegHeaderInfo bytes = some (wd, ht, 3) :=
  ⟨(output_three_channels [] 4 3 Mode.RGBA Mode.RGB 2048).1,
    (output_three_channels [] 4 3 Mode.RGBA Mode.RGB 2048).2 _ rfl⟩

/-- Claim C7: every successful call returns a string whose characters all lie
in the standard base64 alphabet or are padding (in particular no newline, so
no line wrapping), and base64-decoding the string yields exactly the JPEG
byte stream the encoding step produced. -/
theorem output_base64_wellformed_roundtrip (src : Source) (B : ℤ) (s : String)
    (h : resize_and_encode src B = Except.ok s) :
    (∀ ch ∈ s.data, (ch ∈ b64Alphabet ∨ ch = '=') ∧ ch ≠ '\n') ∧
    ∃ raw img, src = Source.imageFile raw img ∧
      b64decodeString s = some (jpegEncode ((resizeStep img B).convert Mode.RGB) QUALITY) := by
  cases src with
  | missingFile => exact absurd h (by simp [resize_and_encode, imageOpen])
  | undecodableBytes raw => exact absurd h (by simp [resize_and_encode, imageOpen])
  | imageFile raw img =>
      obtain ⟨hseq, -, -⟩ := resize_and_encode_ok_inv raw img B s h
      subst hseq
      constructor
      · intro ch hch
        refine ⟨b64encode_chars _ ch hch, ?_⟩
        rcases b64encode_chars _ ch hch with hmem | hpad
        · intro hn; rw [hn] at hmem; exact absurd hmem (by decide)
        · intro hn; rw [hn] at hpad; exact absurd hpad (by decide)
      · exact ⟨raw, img, rfl, b64_roundtrip _ (jpegEncode_bytes_lt _ _)⟩

/-- Witness for C7: the successful call on a 4×3 RGB image with bound 2048
returns alphabet-conformant base64 that decodes back to its JPEG stream. -/
theorem output_base64_wellformed_roundtrip_witness :
    (∀ ch ∈ (String.mk (b64encodeList (jpegEncode
        ((resizeStep ⟨4, 3, Mode.RGB⟩ 2048).convert Mode.RGB) QUALITY))).data,
      (ch ∈ b64Alphabet ∨ ch = '=') ∧ ch ≠ '\n') ∧
    ∃ raw img, Source.imageFile ([] : List ℕ) ⟨4, 3, Mode.RGB⟩ = Source.imageFile raw img ∧
      b64decodeString (String.mk (b64encodeList (jpegEncode
          ((resizeStep ⟨4, 3, Mode.RGB⟩ 2048).convert Mode.RGB) QUALITY))) =
        some (jpegEncode ((resizeStep img 2048).convert Mode.RGB) QUALITY) :=
  output_base64_wellformed_roundtrip (Source.imageFile [] ⟨4, 3, Mode.RGB⟩) 2048 _ rfl

/-- Claim C8: re-normalization is idempotent on dimensions — an image whose
dimensions are already within the bound is left unchanged, and normalizing
its result again with the same bound changes nothing either. -/
theorem renormalization_idempotent (img : RawImage) (B : ℤ)
    (hle : max img.width img.height ≤ B) :
    resizeStep (resizeStep img B) B = resizeStep img B ∧ resizeStep img B = img := by
  have h1 := resizeStep_of_le img B hle
  rw [h1]
  exact ⟨h1, rfl⟩

/-- Witness for C8: re-normalizing a 1024×768 image with bound 2048 is a
fixed point. -/
theorem renormalization_idempotent_witness :
    max (1024:ℤ) 768 ≤ 2048 ∧
    (resizeStep (resizeStep ⟨1024, 768, Mode.RGB⟩ 2048) 2048 =
        resizeStep ⟨1024, 768, Mode.RGB⟩ 2048 ∧
      resizeStep ⟨1024, 768, Mode.RGB⟩ 2048 = ⟨1024, 768, Mode.RGB⟩) :=
  ⟨by decide, renormalization_idempotent ⟨1024, 768, Mode.RGB⟩ 2048 (by decide)⟩

/-- Claim C9: the transform is deterministic — two calls with identical
source content and identical bound return identical results (the quality
level is the constant 85, so it is identical across calls by construction). -/
theorem resize_and_encode_deterministic (s₁ s₂ : Source) (B₁ B₂ : ℤ)
    (hs : s₁ = s₂) (hB : B₁ = B₂) :
    resize_and_encode s₁ B₁ = resize_and_encode s₂ B₂ := by
  rw [hs, hB]

/-- Witness for C9: two identical calls on a 4×3 image agree. -/
theorem resize_and_encode_deterministic_witness :
    resize_and_encode (Source.imageFile [] ⟨4, 3, Mode.RGB⟩) 2048 =
      resize_and_encode (Source.imageFile [] ⟨4, 3, Mode.RGB⟩) 2048 :=
  resize_and_encode_deterministic (Source.imageFile [] ⟨4, 3, Mode.RGB⟩)
    (Source.imageFile [] ⟨4, 3, Mode.RGB⟩) 2048 2048 rfl rfl

/-- Claim C10 (implicit): every call that returns a payload has re-encoded
the raster as a fresh JPEG at quality 85 and base64-encoded that stream; the
result is a function of the decoded raster alone, never of the original file
bytes, so the input byte payload is never passed through unchanged — it is
lossily re-compressed even when the dimensions are unchanged and even when
the input was already a JPEG. -/
theorem always_reencodes_jpeg_quality85 (raw raw2 : List ℕ) (img : RawImage) (B : ℤ)
    (s : String) (h : resize_and_encode (Source.imageFile raw img) B = Except.ok s) :
    s = String.mk (b64encodeList
      (jpegEncode ((resizeStep img B).convert Mode.RGB) QUALITY)) ∧
    QUALITY = 85 ∧
    resize_and_encode (Source.imageFile raw2 img) B = Except.ok s :=
  ⟨(resize_and_encode_ok_inv raw img B s h).1, rfl,
    by
      rw [show resize_and_encode (Source.imageFile raw2 img) B =
          resize_and_encode (Source.imageFile raw img) B from rfl, h]⟩

/-- Witness for C10: a 4×3 grayscale image whose file bytes are `[]` and the
same raster read from file bytes `[7]` both yield the same fresh quality-85
JPEG payload. -/
theorem always_reencodes_jpeg_quality85_witness :
    String.mk (b64encodeList
        (jpegEncode ((resizeStep ⟨4, 3, Mode.L⟩ 2048).convert Mode.RGB) QUALITY)) =
      String.mk (b64encodeList
        (jpegEncode ((resizeStep ⟨4, 3, Mode.L⟩ 2048).convert Mode.RGB) QUALITY)) ∧
    QUALITY = 85 ∧
    resize_and_encode (Source.imageFile [7] ⟨4, 3, Mode.L⟩) 2048 =
      Except.ok (String.mk (b64encodeList
        (jpegEncode ((resizeStep ⟨4, 3, Mode.L⟩ 2048).convert Mode.RGB) QUALITY))) :=
  always_reencodes_jpeg_quality85 [] [7] ⟨4, 3, Mode.L⟩ 2048 _ rfl

end Bshbd
